import Mathlib

/-!
# Audit middleware (`pkg/apiserver/audit/audit.go`)

A shallow embedding of the audit-logging HTTP middleware: the two response
writer wrappers (`auditResponseWriter`, `fancyResponseWriterDelegator`), the
selector `constructResponseWriter` and the handler built by `WithAudit`.

Effects are made explicit by state passing.  A `World σ` carries the state `σ`
of everything outside this package (the underlying writer, the identifier
generator) and a `trace` of the observable calls in the order in which they
happen: calls to `glog.Infof`, calls delegated to the underlying writer, the
entry into the inner handler and the calls the inner handler makes on the
writer it is given.  A Go panic (a failed type assertion) is `none`.
-/

namespace audit

/-! ## Values exchanged with the collaborators -/

/-- An argument handed to `glog.Infof`: a Go `string`, a Go `int`, or a value
with a `String()` method (here `req.URL`), kept as the text that method yields. -/
inductive Arg where
  | str (s : String)
  | int (i : Int)
  | stringer (s : String)
  deriving DecidableEq, Repr

/-- The `url.URL` of a request (package `net/url`), represented by the text its
`String()` method yields. -/
structure URL where
  text : String
  deriving DecidableEq, Repr

/-- The method `String()` of `url.URL`. -/
def URL.String (u : URL) : String := u.text

/-- The part of `http.Request` the middleware reads: `Method`, `Header`
(a `map[string][]string`, as an association list) and `URL`. -/
structure Request where
  Method : String
  Header : List (String × List String)
  URL : URL
  deriving DecidableEq, Repr

/-- The result of `http.ResponseWriter.Header()` (the header map). -/
abbrev HeaderMap := List (String × List String)

/-- The result of `Write`: the byte count and an error, if any. -/
abbrev WriteResult := Int × Option String

/-- The result of `CloseNotify()`: a channel, by its identity (`none` is the
nil channel). -/
abbrev Chan := Option Nat

/-- The result of `Hijack()`: connection, buffered reader-writer and error. -/
abbrev HijackResult := Option Nat × Option Nat × Option String

/-- The methods of a response writer: the three of `http.ResponseWriter` and
the three optional ones (`http.CloseNotifier`, `http.Flusher`, `http.Hijacker`). -/
inductive Method where
  | Header
  | Write (b : List Nat)
  | WriteHeader (code : Int)
  | CloseNotify
  | Flush
  | Hijack
  deriving DecidableEq, Repr

/-- One observable step of an execution. -/
inductive Event where
  /-- The call `glog.Infof(format, args...)`. -/
  | Infof (format : String) (args : List Arg)
  /-- A method of the underlying response writer was invoked. -/
  | underlying (m : Method)
  /-- The inner handler's `ServeHTTP` was entered with this request. -/
  | ServeHTTP (req : Request)
  /-- The inner handler invoked a method of the writer it was given. -/
  | handler (m : Method)
  deriving DecidableEq, Repr

/-- The state threaded through an execution: the state `ext` of the world
outside this package and the trace of observable calls so far. -/
structure World (σ : Type) where
  ext : σ
  trace : List Event

/-- The call `glog.Infof(format, args...)`: one line handed to the log sink. -/
def glogInfof {σ : Type} (format : String) (args : List Arg) (s : World σ) : World σ :=
  { s with trace := s.trace ++ [Event.Infof format args] }

/-! ## The underlying response writer -/

/-- A value of interface type `http.ResponseWriter`: its three methods, and for
each optional interface the method when the dynamic type implements it. -/
structure ResponseWriter (σ : Type) where
  Header : σ → HeaderMap × σ
  Write : List Nat → σ → WriteResult × σ
  WriteHeader : Int → σ → σ
  CloseNotify : Option (σ → Chan × σ)
  Flush : Option (σ → σ)
  Hijack : Option (σ → HijackResult × σ)

/-- The comma-ok assertion `_, cn := w.(http.CloseNotifier)`. -/
def ResponseWriter.isCloseNotifier {σ : Type} (w : ResponseWriter σ) : Bool :=
  w.CloseNotify.isSome

/-- The comma-ok assertion `_, fl := w.(http.Flusher)`. -/
def ResponseWriter.isFlusher {σ : Type} (w : ResponseWriter σ) : Bool :=
  w.Flush.isSome

/-- The comma-ok assertion `_, hj := w.(http.Hijacker)`. -/
def ResponseWriter.isHijacker {σ : Type} (w : ResponseWriter σ) : Bool :=
  w.Hijack.isSome

/-- Run one method of the underlying writer: the call is recorded and the
method acts on the outside state. -/
def invoke {σ α : Type} (m : Method) (f : σ → α × σ) (s : World σ) : α × World σ :=
  ((f s.ext).1, { ext := (f s.ext).2, trace := s.trace ++ [Event.underlying m] })

/-- Run one method of the underlying writer that returns nothing. -/
def invokeUnit {σ : Type} (m : Method) (f : σ → σ) (s : World σ) : World σ :=
  { ext := f s.ext, trace := s.trace ++ [Event.underlying m] }

/-! ## The wrappers -/

/-- The struct `auditResponseWriter`: the embedded `http.ResponseWriter` and
the correlation identifier. -/
structure auditResponseWriter (σ : Type) where
  ResponseWriter : ResponseWriter σ
  id : String

/-- The format of the response line. -/
def responseFormat : String := "AUDIT: id=%q response=\"%d\""

/-- The format of the request line. -/
def requestFormat : String :=
  "AUDIT: id=%q ip=%q method=%q user=%q as=%q namespace=%q uri=%q"

/-- The method `(a *auditResponseWriter) WriteHeader(code int)`. -/
def auditResponseWriter.WriteHeader {σ : Type} (a : auditResponseWriter σ) (code : Int)
    (s : World σ) : World σ :=
  invokeUnit (Method.WriteHeader code) (a.ResponseWriter.WriteHeader code)
    (glogInfof responseFormat [Arg.str a.id, Arg.int code] s)

/-- The method `Write`, promoted from the embedded `http.ResponseWriter`. -/
def auditResponseWriter.Write {σ : Type} (a : auditResponseWriter σ) (b : List Nat)
    (s : World σ) : WriteResult × World σ :=
  invoke (Method.Write b) (a.ResponseWriter.Write b) s

/-- The method `Header`, promoted from the embedded `http.ResponseWriter`. -/
def auditResponseWriter.Header {σ : Type} (a : auditResponseWriter σ)
    (s : World σ) : HeaderMap × World σ :=
  invoke Method.Header a.ResponseWriter.Header s

/-- The struct `fancyResponseWriterDelegator`: the embedded
`*auditResponseWriter`. -/
structure fancyResponseWriterDelegator (σ : Type) where
  auditResponseWriter : auditResponseWriter σ

/-- The method `(f *fancyResponseWriterDelegator) CloseNotify()`; the
assertion `f.ResponseWriter.(http.CloseNotifier)` panics when it fails. -/
def fancyResponseWriterDelegator.CloseNotify {σ : Type}
    (f : fancyResponseWriterDelegator σ) (s : World σ) : Option (Chan × World σ) :=
  match f.auditResponseWriter.ResponseWriter.CloseNotify with
  | none => none
  | some cn => some (invoke Method.CloseNotify cn s)

/-- The method `(f *fancyResponseWriterDelegator) Flush()`; the assertion
`f.ResponseWriter.(http.Flusher)` panics when it fails. -/
def fancyResponseWriterDelegator.Flush {σ : Type}
    (f : fancyResponseWriterDelegator σ) (s : World σ) : Option (World σ) :=
  match f.auditResponseWriter.ResponseWriter.Flush with
  | none => none
  | some fl => some (invokeUnit Method.Flush fl s)

/-- The method `(f *fancyResponseWriterDelegator) Hijack()`; the assertion
`f.ResponseWriter.(http.Hijacker)` panics when it fails. -/
def fancyResponseWriterDelegator.Hijack {σ : Type}
    (f : fancyResponseWriterDelegator σ) (s : World σ) : Option (HijackResult × World σ) :=
  match f.auditResponseWriter.ResponseWriter.Hijack with
  | none => none
  | some hj => some (invoke Method.Hijack hj s)

/-- The value returned by `constructResponseWriter`, an `http.ResponseWriter`
whose dynamic type is `*auditResponseWriter` or `*fancyResponseWriterDelegator`. -/
inductive Wrapper (σ : Type) where
  | audit (a : auditResponseWriter σ)
  | fancy (f : fancyResponseWriterDelegator σ)

/-- The function `constructResponseWriter(responseWriter, id)`. -/
def constructResponseWriter {σ : Type} (responseWriter : ResponseWriter σ) (id : String) :
    Wrapper σ :=
  let delegate : auditResponseWriter σ := { ResponseWriter := responseWriter, id := id }
  let cn := responseWriter.isCloseNotifier
  let fl := responseWriter.isFlusher
  let hj := responseWriter.isHijacker
  if cn && fl && hj then
    Wrapper.fancy { auditResponseWriter := delegate }
  else
    Wrapper.audit delegate

/-- The `auditResponseWriter` inside a wrapper (itself, or the embedded one). -/
def Wrapper.base {σ : Type} : Wrapper σ → auditResponseWriter σ
  | Wrapper.audit a => a
  | Wrapper.fancy f => f.auditResponseWriter

/-- The underlying writer a wrapper holds. -/
def Wrapper.ResponseWriter {σ : Type} (x : Wrapper σ) : ResponseWriter σ :=
  x.base.ResponseWriter

/-- The correlation identifier a wrapper holds. -/
def Wrapper.id {σ : Type} (x : Wrapper σ) : String :=
  x.base.id

/-- `WriteHeader` on a wrapper: both dynamic types have the method of
`auditResponseWriter` (for the delegator it is promoted from the embedded
pointer). -/
def Wrapper.WriteHeader {σ : Type} (x : Wrapper σ) (code : Int) (s : World σ) : World σ :=
  x.base.WriteHeader code s

/-- `Write` on a wrapper, promoted from the embedded writer in both cases. -/
def Wrapper.Write {σ : Type} (x : Wrapper σ) (b : List Nat) (s : World σ) :
    WriteResult × World σ :=
  x.base.Write b s

/-- `Header` on a wrapper, promoted from the embedded writer in both cases. -/
def Wrapper.Header {σ : Type} (x : Wrapper σ) (s : World σ) : HeaderMap × World σ :=
  x.base.Header s

/-- The assertion `x.(http.CloseNotifier)` on a wrapper: only the method set of
`*fancyResponseWriterDelegator` has `CloseNotify`. -/
def Wrapper.asCloseNotifier {σ : Type} :
    Wrapper σ → Option (World σ → Option (Chan × World σ))
  | Wrapper.audit _ => none
  | Wrapper.fancy f => some f.CloseNotify

/-- The assertion `x.(http.Flusher)` on a wrapper. -/
def Wrapper.asFlusher {σ : Type} : Wrapper σ → Option (World σ → Option (World σ))
  | Wrapper.audit _ => none
  | Wrapper.fancy f => some f.Flush

/-- The assertion `x.(http.Hijacker)` on a wrapper. -/
def Wrapper.asHijacker {σ : Type} :
    Wrapper σ → Option (World σ → Option (HijackResult × World σ))
  | Wrapper.audit _ => none
  | Wrapper.fancy f => some f.Hijack

/-- Whether the wrapper's dynamic type is `*fancyResponseWriterDelegator`. -/
def Wrapper.isFancy {σ : Type} : Wrapper σ → Bool
  | Wrapper.audit _ => false
  | Wrapper.fancy _ => true

/-! ## The inner handler -/

/-- An inner `http.Handler`, as the calls its `ServeHTTP` makes: each node is
one thing the handler does and the continuation receives what that call
returned.  The handler may use the three methods of `http.ResponseWriter`, may
try the three optional interfaces with a comma-ok assertion and call the
method when the assertion holds, and may act on the world outside this package
(`effect`). -/
inductive Script (σ : Type) where
  | done
  | WriteHeader (code : Int) (k : Script σ)
  | Write (b : List Nat) (k : WriteResult → Script σ)
  | Header (k : HeaderMap → Script σ)
  | CloseNotify (k : Option Chan → Script σ)
  | Flush (k : Bool → Script σ)
  | Hijack (k : Option HijackResult → Script σ)
  | effect (f : σ → σ) (k : σ → Script σ)

/-- Record that the inner handler invokes method `m` of its writer. -/
def handlerCalls {σ : Type} (m : Method) (s : World σ) : World σ :=
  { s with trace := s.trace ++ [Event.handler m] }

/-- Run the calls of an inner handler against the writer `x` it was given. -/
def Script.run {σ : Type} : Script σ → Wrapper σ → World σ → Option (World σ)
  | Script.done, _, s => some s
  | Script.WriteHeader code k, x, s =>
      k.run x (x.WriteHeader code (handlerCalls (Method.WriteHeader code) s))
  | Script.Write b k, x, s =>
      (k (x.Write b (handlerCalls (Method.Write b) s)).1).run x
        (x.Write b (handlerCalls (Method.Write b) s)).2
  | Script.Header k, x, s =>
      (k (x.Header (handlerCalls Method.Header s)).1).run x
        (x.Header (handlerCalls Method.Header s)).2
  | Script.CloseNotify k, x, s =>
      match x.asCloseNotifier with
      | none => (k none).run x s
      | some cn =>
        match cn (handlerCalls Method.CloseNotify s) with
        | none => none
        | some r => (k (some r.1)).run x r.2
  | Script.Flush k, x, s =>
      match x.asFlusher with
      | none => (k false).run x s
      | some fl =>
        match fl (handlerCalls Method.Flush s) with
        | none => none
        | some s1 => (k true).run x s1
  | Script.Hijack k, x, s =>
      match x.asHijacker with
      | none => (k none).run x s
      | some hj =>
        match hj (handlerCalls Method.Hijack s) with
        | none => none
        | some r => (k (some r.1)).run x r.2
  | Script.effect f k, x, s =>
      (k (f s.ext)).run x { s with ext := f s.ext }

/-- The call `handler.ServeHTTP(x, req)`. -/
def ServeHTTP {σ : Type} (handler : Request → Script σ) (x : Wrapper σ) (req : Request)
    (s : World σ) : Option (World σ) :=
  (handler req).run x { s with trace := s.trace ++ [Event.ServeHTTP req] }

/-! ## The collaborators of `WithAudit` -/

/-- Modelled from the spec: the authenticated principal (`user.Info`, package
`pkg/auth/user`), of which the middleware reads the display name. -/
structure UserInfo where
  Name : String
  deriving DecidableEq, Repr

/-- Modelled from the spec: the request context (`api.Context`, package
`pkg/api`), which may carry an authenticated user and a namespace. -/
structure Context where
  user : Option UserInfo
  namespaceValue : Option String
  deriving DecidableEq, Repr

/-- Modelled from the spec: `api.UserFrom(ctx)` (package `pkg/api`), the
user-from-context collaborator, which "tolerates absence": without a context
or without a user it yields no user and `false`. -/
def UserFrom : Option Context → Option UserInfo × Bool
  | none => (none, false)
  | some c => (c.user, c.user.isSome)

/-- Modelled from the spec: `user.GetName()` (package `pkg/auth/user`); an
absent user is "treated as anonymous/empty name". -/
def GetName : Option UserInfo → String
  | none => ""
  | some u => u.Name

/-- Modelled from the spec: `api.NamespaceValue(ctx)` (package `pkg/api`), the
collaborator that extracts the namespace from a context and "tolerates
absence": without a context or without a namespace it yields the empty string. -/
def NamespaceValue : Option Context → String
  | none => ""
  | some c => c.namespaceValue.getD ""

/-- The parameter `requestContextMapper api.RequestContextMapper`: its method
`Get(req)` yields the context of the request, nil when there is none, and a
found indicator. -/
structure RequestContextMapper (σ : Type) where
  Get : Request → σ → Option Context × Bool

/-- The functions `WithAudit` calls outside this package:
`utilnet.GetClientIP(req)` and `uuid.NewRandom().String()`. -/
structure Collaborators (σ : Type) where
  GetClientIP : Request → String
  NewRandomString : σ → String × σ

/-- The method `Get(key)` of `http.Header` for a key in canonical form: the
first value stored under the key, and `""` when there is none. -/
def HeaderGet (h : List (String × List String)) (key : String) : String :=
  match h.lookup key with
  | some (v :: _) => v
  | _ => ""

/-- Go's `len(s)` of a string: its length in bytes. -/
def len (s : String) : Nat := s.utf8ByteSize

/-- The impersonated user logged for a request (the variable `asuser`). -/
def asuserOf (req : Request) : String :=
  let asuser := HeaderGet req.Header "Impersonate-User"
  if len asuser == 0 then "<self>" else asuser

/-- The namespace logged for a context (the variable `namespace`). -/
def namespaceOf (ctx : Option Context) : String :=
  let ns := NamespaceValue ctx
  if len ns == 0 then "<none>" else ns

/-- The handler function returned by `WithAudit(handler, requestContextMapper)`,
applied to the writer `w` and the request `req`. -/
def WithAudit {σ : Type} (env : Collaborators σ) (handler : Request → Script σ)
    (requestContextMapper : RequestContextMapper σ) (w : ResponseWriter σ) (req : Request)
    (s : World σ) : Option (World σ) :=
  let ctx := (requestContextMapper.Get req s.ext).1
  let user := (UserFrom ctx).1
  let asuser := asuserOf req
  let ns := namespaceOf ctx
  let id := (env.NewRandomString s.ext).1
  let s1 : World σ := { s with ext := (env.NewRandomString s.ext).2 }
  let s2 := glogInfof requestFormat
    [Arg.str id, Arg.str (env.GetClientIP req), Arg.str req.Method, Arg.str (GetName user),
     Arg.str asuser, Arg.str ns, Arg.stringer req.URL.String] s1
  ServeHTTP handler (constructResponseWriter w id) req s2

/-! ## Rendering of a log line

The fragment of Go's `fmt` the two formats use: the verbs `%q` (on a string, or
on a value with a `String()` method) and `%d` (on an integer). -/

/-- The digit of `n % 16` in lower-case hexadecimal. -/
def lowerhex (n : Nat) : Char :=
  if n % 16 < 10 then Char.ofNat (48 + n % 16) else Char.ofNat (87 + n % 16)

/-- The last `width` hexadecimal digits of `n`, most significant first. -/
def hexDigits : Nat → Nat → List Char
  | 0, _ => []
  | width + 1, n => hexDigits width (n / 16) ++ [lowerhex n]

/-- Go's `strconv.IsPrint`: decided here for Latin-1, and left to
`unicodePrint` (the Unicode tables) above it. -/
def IsPrint (unicodePrint : Char → Bool) (r : Char) : Bool :=
  if r.toNat ≤ 255 then
    (32 ≤ r.toNat && r.toNat ≤ 126) || (161 ≤ r.toNat && r.toNat != 173)
  else unicodePrint r

/-- Go's `strconv.Quote` on one rune of a valid string. -/
def appendEscapedRune (unicodePrint : Char → Bool) (r : Char) : List Char :=
  if r.toNat = 34 ∨ r.toNat = 92 then [Char.ofNat 92, r]
  else if IsPrint unicodePrint r then [r]
  else if r.toNat = 7 then [Char.ofNat 92, 'a']
  else if r.toNat = 8 then [Char.ofNat 92, 'b']
  else if r.toNat = 12 then [Char.ofNat 92, 'f']
  else if r.toNat = 10 then [Char.ofNat 92, 'n']
  else if r.toNat = 13 then [Char.ofNat 92, 'r']
  else if r.toNat = 9 then [Char.ofNat 92, 't']
  else if r.toNat = 11 then [Char.ofNat 92, 'v']
  else if r.toNat < 32 ∨ r.toNat = 127 then [Char.ofNat 92, 'x'] ++ hexDigits 2 r.toNat
  else if r.toNat < 65536 then [Char.ofNat 92, 'u'] ++ hexDigits 4 r.toNat
  else [Char.ofNat 92, 'U'] ++ hexDigits 8 r.toNat

/-- Go's `strconv.Quote`: the string as a double-quoted Go literal. -/
def Quote (unicodePrint : Char → Bool) (s : List Char) : List Char :=
  [Char.ofNat 34] ++ s.flatMap (appendEscapedRune unicodePrint) ++ [Char.ofNat 34]

/-- Go's `fmt.Sprintf` on the verbs `%q` and `%d`; `none` outside that
fragment (another verb, a missing or surplus argument, an argument of the
wrong kind for its verb). -/
def sprintfChars (unicodePrint : Char → Bool) : List Char → List Arg → Option (List Char)
  | [], [] => some []
  | [], _ :: _ => none
  | '%' :: 'q' :: fmt, Arg.str v :: args =>
      (sprintfChars unicodePrint fmt args).map (Quote unicodePrint v.toList ++ ·)
  | '%' :: 'q' :: fmt, Arg.stringer v :: args =>
      (sprintfChars unicodePrint fmt args).map (Quote unicodePrint v.toList ++ ·)
  | '%' :: 'd' :: fmt, Arg.int i :: args =>
      (sprintfChars unicodePrint fmt args).map ((toString i).toList ++ ·)
  | '%' :: _, _ => none
  | c :: fmt, args => (sprintfChars unicodePrint fmt args).map (c :: ·)

/-- Go's `fmt.Sprintf(format, args...)` on the modelled fragment. -/
def Sprintf (unicodePrint : Char → Bool) (format : String) (args : List Arg) :
    Option String :=
  (sprintfChars unicodePrint format.toList args).map String.mk

/-- The message of a log event, as `glog.Infof` formats it. -/
def Event.message (unicodePrint : Char → Bool) : Event → Option String
  | Event.Infof format args => Sprintf unicodePrint format args
  | _ => none

/-! ## Example writers and the sequence of status commits -/

/-- A writer with none of the optional interfaces (the test's
`simpleResponseWriter`); the outside state counts the calls it receives. -/
def simpleResponseWriter : ResponseWriter Nat where
  Header := fun n => ([], n + 1)
  Write := fun b n => ((b.length, none), n + 1)
  WriteHeader := fun _ n => n + 1
  CloseNotify := none
  Flush := none
  Hijack := none

/-- A writer with all three optional interfaces (the test's
`fancyResponseWriter`). -/
def fancyResponseWriter : ResponseWriter Nat :=
  { simpleResponseWriter with
    CloseNotify := some (fun n => (none, n + 1))
    Flush := some (fun n => n + 1)
    Hijack := some (fun n => ((none, none, none), n + 1)) }

/-- A writer that implements `http.Flusher` only. -/
def flushOnlyResponseWriter : ResponseWriter Nat :=
  { simpleResponseWriter with Flush := some (fun n => n + 1) }

/-- The calls `x.WriteHeader(c1); ...; x.WriteHeader(cn)` in this order. -/
def writeHeaders {σ : Type} (x : Wrapper σ) (codes : List Int) (s : World σ) : World σ :=
  codes.foldl (fun s1 c => x.WriteHeader c s1) s

/-- The claim that wrapping keeps every optional interface of the underlying
writer, as a property of one writer and one wrapper. -/
def KeepsCapabilities {σ : Type} (w : ResponseWriter σ) (x : Wrapper σ) : Prop :=
  (w.isCloseNotifier = true → x.asCloseNotifier.isSome = true) ∧
  (w.isFlusher = true → x.asFlusher.isSome = true) ∧
  (w.isHijacker = true → x.asHijacker.isSome = true)

/-! ## Reading a trace -/

/-- The argument lists of the request lines of a trace, in order. -/
def requestLines (t : List Event) : List (List Arg) :=
  t.filterMap fun e =>
    match e with
    | Event.Infof format args => if format = requestFormat then some args else none
    | _ => none

/-- The argument lists of the response lines of a trace, in order. -/
def responseLines (t : List Event) : List (List Arg) :=
  t.filterMap fun e =>
    match e with
    | Event.Infof format args => if format = responseFormat then some args else none
    | _ => none

/-- The status codes the inner handler committed (its `WriteHeader` calls), in
order. -/
def commits (t : List Event) : List Int :=
  t.filterMap fun e =>
    match e with
    | Event.handler (Method.WriteHeader code) => some code
    | _ => none

/-- The status codes delegated to the underlying writer's `WriteHeader`, in
order. -/
def delegatedCommits (t : List Event) : List Int :=
  t.filterMap fun e =>
    match e with
    | Event.underlying (Method.WriteHeader code) => some code
    | _ => none

/-- The requests with which the inner handler was entered, in order. -/
def serves (t : List Event) : List Request :=
  t.filterMap fun e =>
    match e with
    | Event.ServeHTTP req => some req
    | _ => none

/-- The arguments of the request line `WithAudit` emits for `req` in the world
`s`: the generated id, the client IP, the method, the user name, the
impersonated user, the namespace and the URI. -/
def requestArgs {σ : Type} (env : Collaborators σ)
    (requestContextMapper : RequestContextMapper σ) (req : Request) (s : World σ) : List Arg :=
  [Arg.str (env.NewRandomString s.ext).1, Arg.str (env.GetClientIP req), Arg.str req.Method,
   Arg.str (GetName (UserFrom (requestContextMapper.Get req s.ext).1).1),
   Arg.str (asuserOf req), Arg.str (namespaceOf (requestContextMapper.Get req s.ext).1),
   Arg.stringer req.URL.String]

/-- What the events the inner handler causes must look like for the
identifier `id`: no request line, no second entry into the handler, and one
response line with `id` and one delegated commit per commit of the handler, in
the same order. -/
def Audited (id : String) (d : List Event) : Prop :=
  requestLines d = [] ∧ serves d = [] ∧
  responseLines d = (commits d).map (fun c => [Arg.str id, Arg.int c]) ∧
  delegatedCommits d = commits d

/-- A wrapper whose casts cannot fail: a delegator whose underlying writer has
all three optional interfaces, or a plain `auditResponseWriter`. -/
def Wrapper.Sound {σ : Type} : Wrapper σ → Prop
  | Wrapper.audit _ => True
  | Wrapper.fancy f =>
      f.auditResponseWriter.ResponseWriter.isCloseNotifier = true ∧
      f.auditResponseWriter.ResponseWriter.isFlusher = true ∧
      f.auditResponseWriter.ResponseWriter.isHijacker = true

/-! ## Scenarios -/

/-- The request of the scenario: `GET /api/v1/pods` with
`Impersonate-User: alice`. -/
def scenarioRequest : Request :=
  { Method := "GET", Header := [("Impersonate-User", ["alice"])],
    URL := { text := "/api/v1/pods" } }

/-- A context mapper that finds user `system:admin` in namespace `default`. -/
def scenarioMapper : RequestContextMapper Nat :=
  { Get := fun _ _ =>
      (some { user := some { Name := "system:admin" }, namespaceValue := some "default" }, true) }

/-- Collaborators with a fixed client IP and a fixed generated identifier; the
outside state counts the identifiers drawn. -/
def scenarioEnv : Collaborators Nat :=
  { GetClientIP := fun _ => "10.0.0.1"
    NewRandomString := fun n => ("6ba7b810-9dad-41d1-80b4-00c04fd430c8", n + 1) }

/-- An inner handler that commits status 200 and returns. -/
def scenarioHandler : Request → Script Nat :=
  fun _ => Script.WriteHeader 200 Script.done

/-- Whether every string among the arguments lies in Latin-1. -/
def latin1Args (args : List Arg) : Bool :=
  args.all fun a =>
    match a with
    | Arg.str v => v.toList.all (fun c => decide (c.toNat ≤ 255))
    | Arg.stringer v => v.toList.all (fun c => decide (c.toNat ≤ 255))
    | Arg.int _ => true

/-- A context mapper that finds no context for any request. -/
def absentMapper : RequestContextMapper Nat :=
  { Get := fun _ _ => (none, false) }

/-- A request with `Impersonate-User: bob`. -/
def bobRequest : Request :=
  { Method := "GET", Header := [("Impersonate-User", ["bob"])], URL := { text := "/healthz" } }

/-- A request without headers. -/
def bareRequest : Request :=
  { Method := "GET", Header := [], URL := { text := "/healthz" } }

/-! ## The selector -/

theorem constructResponseWriter_of_all {σ : Type} (w : ResponseWriter σ) (id : String)
    (h : (w.isCloseNotifier && w.isFlusher && w.isHijacker) = true) :
    constructResponseWriter w id =
      Wrapper.fancy { auditResponseWriter := { ResponseWriter := w, id := id } } := by
  simp only [constructResponseWriter, h, if_true]

theorem constructResponseWriter_of_not_all {σ : Type} (w : ResponseWriter σ) (id : String)
    (h : (w.isCloseNotifier && w.isFlusher && w.isHijacker) = false) :
    constructResponseWriter w id = Wrapper.audit { ResponseWriter := w, id := id } := by
  simp [constructResponseWriter, h]

theorem constructResponseWriter_base {σ : Type} (w : ResponseWriter σ) (id : String) :
    (constructResponseWriter w id).base = { ResponseWriter := w, id := id } := by
  cases h : (w.isCloseNotifier && w.isFlusher && w.isHijacker)
  · rw [constructResponseWriter_of_not_all w id h]; rfl
  · rw [constructResponseWriter_of_all w id h]; rfl

/-- C1: `constructResponseWriter(w, id)` is the delegator exactly when `w`
implements all of `http.CloseNotifier`, `http.Flusher` and `http.Hijacker`, and
is otherwise the plain `auditResponseWriter`, on which none of the three
assertions holds; either way the wrapper holds `w` and `id`. -/
theorem constructResponseWriter_variant {σ : Type} (w : ResponseWriter σ) (id : String) :
    ((constructResponseWriter w id =
        Wrapper.fancy { auditResponseWriter := { ResponseWriter := w, id := id } }) ↔
      (w.isCloseNotifier = true ∧ w.isFlusher = true ∧ w.isHijacker = true)) ∧
    ((constructResponseWriter w id = Wrapper.audit { ResponseWriter := w, id := id } ∧
        (constructResponseWriter w id).asCloseNotifier.isSome = false ∧
        (constructResponseWriter w id).asFlusher.isSome = false ∧
        (constructResponseWriter w id).asHijacker.isSome = false) ↔
      ¬ (w.isCloseNotifier = true ∧ w.isFlusher = true ∧ w.isHijacker = true)) ∧
    (constructResponseWriter w id).ResponseWriter = w ∧
    (constructResponseWriter w id).id = id := by
  cases h : (w.isCloseNotifier && w.isFlusher && w.isHijacker)
  · have hn : ¬ (w.isCloseNotifier = true ∧ w.isFlusher = true ∧ w.isHijacker = true) := by
      intro ⟨h1, h2, h3⟩
      simp [h1, h2, h3] at h
    rw [constructResponseWriter_of_not_all w id h]
    refine ⟨⟨fun e => ?_, fun e => absurd e hn⟩, ⟨fun _ => hn, fun _ => ⟨rfl, rfl, rfl, rfl⟩⟩,
      rfl, rfl⟩
    cases e
  · have hy : w.isCloseNotifier = true ∧ w.isFlusher = true ∧ w.isHijacker = true := by
      simpa [Bool.and_eq_true, and_assoc] using h
    rw [constructResponseWriter_of_all w id h]
    refine ⟨⟨fun _ => hy, fun _ => rfl⟩, ⟨fun e => ?_, fun e => absurd hy e⟩, rfl, rfl⟩
    cases e.1

/-- C2, as stated, fails: the writer that implements `http.Flusher` only is
wrapped into a writer on which the `http.Flusher` assertion does not hold. -/
theorem keepsCapabilities_fails :
    flushOnlyResponseWriter.isFlusher = true ∧
    (constructResponseWriter flushOnlyResponseWriter "whatever").asFlusher.isSome = false ∧
    ¬ KeepsCapabilities flushOnlyResponseWriter
        (constructResponseWriter flushOnlyResponseWriter "whatever") := by
  refine ⟨rfl, rfl, ?_⟩
  intro ⟨_, h, _⟩
  exact absurd (h rfl) (by decide)

/-- C2, amended: each optional interface is available on the wrapper exactly
when the underlying writer has all three; so the wrapper never exposes an
interface the underlying writer lacks, and the two capability sets agree
exactly when the underlying writer has all three or none. -/
theorem wrapper_capabilities {σ : Type} (w : ResponseWriter σ) (id : String) :
    ((constructResponseWriter w id).asCloseNotifier.isSome =
      (w.isCloseNotifier && w.isFlusher && w.isHijacker)) ∧
    ((constructResponseWriter w id).asFlusher.isSome =
      (w.isCloseNotifier && w.isFlusher && w.isHijacker)) ∧
    ((constructResponseWriter w id).asHijacker.isSome =
      (w.isCloseNotifier && w.isFlusher && w.isHijacker)) ∧
    (((constructResponseWriter w id).asCloseNotifier.isSome = w.isCloseNotifier ∧
        (constructResponseWriter w id).asFlusher.isSome = w.isFlusher ∧
        (constructResponseWriter w id).asHijacker.isSome = w.isHijacker) ↔
      ((w.isCloseNotifier = true ∧ w.isFlusher = true ∧ w.isHijacker = true) ∨
        (w.isCloseNotifier = false ∧ w.isFlusher = false ∧ w.isHijacker = false))) := by
  cases h : (w.isCloseNotifier && w.isFlusher && w.isHijacker)
  · rw [constructResponseWriter_of_not_all w id h]
    refine ⟨rfl, rfl, rfl, ?_⟩
    simp only [Wrapper.asCloseNotifier, Wrapper.asFlusher, Wrapper.asHijacker, Option.isSome_none]
    revert h
    cases w.isCloseNotifier <;> cases w.isFlusher <;> cases w.isHijacker <;> simp
  · rw [constructResponseWriter_of_all w id h]
    refine ⟨rfl, rfl, rfl, ?_⟩
    simp only [Wrapper.asCloseNotifier, Wrapper.asFlusher, Wrapper.asHijacker, Option.isSome_some]
    revert h
    cases w.isCloseNotifier <;> cases w.isFlusher <;> cases w.isHijacker <;> simp

/-! ## The delegator's three methods -/

/-- C3: when `w` implements all three optional interfaces, each of the three
assertions holds on `constructResponseWriter(w, id)`, and the method obtained
runs exactly the corresponding method of `w` once, returns its result, does not
panic and logs nothing. -/
theorem fancy_forwards {σ : Type} (w : ResponseWriter σ) (id : String)
    (cn : σ → Chan × σ) (fl : σ → σ) (hj : σ → HijackResult × σ)
    (hcn : w.CloseNotify = some cn) (hfl : w.Flush = some fl) (hhj : w.Hijack = some hj)
    (s : World σ) :
    (∃ m, (constructResponseWriter w id).asCloseNotifier = some m ∧
      m s = some ((cn s.ext).1,
        { ext := (cn s.ext).2, trace := s.trace ++ [Event.underlying Method.CloseNotify] })) ∧
    (∃ m, (constructResponseWriter w id).asFlusher = some m ∧
      m s = some
        { ext := fl s.ext, trace := s.trace ++ [Event.underlying Method.Flush] }) ∧
    (∃ m, (constructResponseWriter w id).asHijacker = some m ∧
      m s = some ((hj s.ext).1,
        { ext := (hj s.ext).2, trace := s.trace ++ [Event.underlying Method.Hijack] })) := by
  have h : (w.isCloseNotifier && w.isFlusher && w.isHijacker) = true := by
    simp [ResponseWriter.isCloseNotifier, ResponseWriter.isFlusher, ResponseWriter.isHijacker,
      hcn, hfl, hhj]
  rw [constructResponseWriter_of_all w id h]
  refine ⟨⟨_, rfl, ?_⟩, ⟨_, rfl, ?_⟩, ⟨_, rfl, ?_⟩⟩
  · simp [fancyResponseWriterDelegator.CloseNotify, hcn, invoke]
  · simp [fancyResponseWriterDelegator.Flush, hfl, invokeUnit]
  · simp [fancyResponseWriterDelegator.Hijack, hhj, invoke]

/-- C3 at `fancyResponseWriter`, from a world in which two calls were made. -/
theorem fancy_forwards_witness :
    (∃ m, (constructResponseWriter fancyResponseWriter "whatever").asCloseNotifier = some m ∧
      m { ext := 2, trace := [] } =
        some (none, { ext := 3, trace := [Event.underlying Method.CloseNotify] })) ∧
    (∃ m, (constructResponseWriter fancyResponseWriter "whatever").asFlusher = some m ∧
      m { ext := 2, trace := [] } =
        some { ext := 3, trace := [Event.underlying Method.Flush] }) ∧
    (∃ m, (constructResponseWriter fancyResponseWriter "whatever").asHijacker = some m ∧
      m { ext := 2, trace := [] } =
        some ((none, none, none), { ext := 3, trace := [Event.underlying Method.Hijack] })) :=
  fancy_forwards fancyResponseWriter "whatever" (fun n => (none, n + 1)) (fun n => n + 1)
    (fun n => ((none, none, none), n + 1)) rfl rfl rfl { ext := 2, trace := [] }

/-! ## The status commit -/

theorem writeHeader_trace {σ : Type} (x : Wrapper σ) (c : Int) (s : World σ) :
    x.WriteHeader c s =
      { ext := x.ResponseWriter.WriteHeader c s.ext,
        trace := s.trace ++ [Event.Infof responseFormat [Arg.str x.id, Arg.int c],
          Event.underlying (Method.WriteHeader c)] } := by
  simp [Wrapper.WriteHeader, auditResponseWriter.WriteHeader, invokeUnit, glogInfof,
    Wrapper.ResponseWriter, Wrapper.id]

/-- C4: `n` calls of `WriteHeader` on a wrapper with identifier `id` (either
variant) add to the trace, for each code in turn, the response line for
`(id, code)` followed by the delegated `WriteHeader(code)`, and nothing else;
the underlying writer receives the codes in the same order. -/
theorem status_commits_logged_and_delegated {σ : Type} (x : Wrapper σ) (codes : List Int) (s : World σ) :
    (writeHeaders x codes s).trace =
      s.trace ++ codes.flatMap (fun c =>
        [Event.Infof responseFormat [Arg.str x.id, Arg.int c],
         Event.underlying (Method.WriteHeader c)]) ∧
    (writeHeaders x codes s).ext =
      codes.foldl (fun e c => x.ResponseWriter.WriteHeader c e) s.ext ∧
    responseLines ((writeHeaders x codes s).trace.drop s.trace.length) =
      codes.map (fun c => [Arg.str x.id, Arg.int c]) ∧
    delegatedCommits ((writeHeaders x codes s).trace.drop s.trace.length) = codes := by
  have key : ∀ (cs : List Int) (s : World σ),
      (writeHeaders x cs s).trace =
        s.trace ++ cs.flatMap (fun c =>
          [Event.Infof responseFormat [Arg.str x.id, Arg.int c],
           Event.underlying (Method.WriteHeader c)]) ∧
      (writeHeaders x cs s).ext =
        cs.foldl (fun e c => x.ResponseWriter.WriteHeader c e) s.ext := by
    intro cs
    induction cs with
    | nil => intro s; simp [writeHeaders]
    | cons c cs ih =>
      intro s
      have h := ih (x.WriteHeader c s)
      simp only [writeHeaders, List.foldl_cons] at h ⊢
      rw [h.1, h.2, writeHeader_trace]
      simp
  refine ⟨(key codes s).1, (key codes s).2, ?_, ?_⟩
  · rw [(key codes s).1, List.drop_left]
    induction codes with
    | nil => rfl
    | cons c cs ih =>
      simp only [List.flatMap_cons, List.map_cons]
      rw [← ih]
      simp [responseLines, List.filterMap_cons]
  · rw [(key codes s).1, List.drop_left]
    induction codes with
    | nil => rfl
    | cons c cs ih =>
      simp only [List.flatMap_cons]
      conv_rhs => rw [← ih]
      simp [delegatedCommits, List.filterMap_cons]

/-! ## The promoted methods -/

/-- C10: `Write(b)` and `Header()` on a wrapper (either variant) run exactly
that method of the underlying writer on the same argument, return its result
and add nothing else to the trace: no log line and no `WriteHeader`.  The
wrapper is a value the two methods cannot assign to.  For a handler whose
first call is a body write, the trace of the call holds no response line. -/
theorem write_header_pass_through {σ : Type} (x : Wrapper σ) (b : List Nat) (s : World σ) :
    x.Write b s = ((x.ResponseWriter.Write b s.ext).1,
      { ext := (x.ResponseWriter.Write b s.ext).2,
        trace := s.trace ++ [Event.underlying (Method.Write b)] }) ∧
    x.Header s = ((x.ResponseWriter.Header s.ext).1,
      { ext := (x.ResponseWriter.Header s.ext).2,
        trace := s.trace ++ [Event.underlying Method.Header] }) ∧
    (∀ (w : ResponseWriter σ) (id : String),
      (constructResponseWriter w id).Write b s = ((w.Write b s.ext).1,
        { ext := (w.Write b s.ext).2,
          trace := s.trace ++ [Event.underlying (Method.Write b)] }) ∧
      (constructResponseWriter w id).Header s = ((w.Header s.ext).1,
        { ext := (w.Header s.ext).2,
          trace := s.trace ++ [Event.underlying Method.Header] })) ∧
    (∃ s1, (Script.Write b (fun _ => Script.done)).run x s = some s1 ∧
      s1.trace = s.trace ++ [Event.handler (Method.Write b), Event.underlying (Method.Write b)] ∧
      s1.ext = (x.ResponseWriter.Write b s.ext).2 ∧
      responseLines (s1.trace.drop s.trace.length) = [] ∧
      delegatedCommits (s1.trace.drop s.trace.length) = []) := by
  refine ⟨rfl, rfl, ?_, ?_⟩
  · intro w id
    simp only [Wrapper.Write, Wrapper.Header, constructResponseWriter_base]
    exact ⟨rfl, rfl⟩
  · refine ⟨_, rfl, ?_, rfl, ?_, ?_⟩
    · simp [Wrapper.Write, auditResponseWriter.Write, invoke, handlerCalls]
    · simp [Wrapper.Write, auditResponseWriter.Write, invoke, handlerCalls, responseLines]
    · simp [Wrapper.Write, auditResponseWriter.Write, invoke, handlerCalls, delegatedCommits]

/-! ## The handler built by `WithAudit` -/

theorem len_eq_zero_iff (s : String) : len s = 0 ↔ s = "" := by
  obtain ⟨cs⟩ := s
  cases cs with
  | nil => simp [len, String.utf8ByteSize, String.utf8ByteSize.go]
  | cons c cs =>
    have hc := Char.utf8Size_pos c
    simp only [len, String.utf8ByteSize, String.utf8ByteSize.go]
    constructor
    · intro h; omega
    · intro h
      have h1 := congrArg String.data h
      simp at h1

theorem audited_nil (id : String) : Audited id [] := ⟨rfl, rfl, rfl, rfl⟩

theorem audited_append {id : String} {d1 d2 : List Event} (h1 : Audited id d1)
    (h2 : Audited id d2) : Audited id (d1 ++ d2) := by
  obtain ⟨a1, b1, c1, e1⟩ := h1
  obtain ⟨a2, b2, c2, e2⟩ := h2
  refine ⟨?_, ?_, ?_, ?_⟩
  · simp only [requestLines, List.filterMap_append] at a1 a2 ⊢
    rw [a1, a2]; rfl
  · simp only [serves, List.filterMap_append] at b1 b2 ⊢
    rw [b1, b2]; rfl
  · simp only [responseLines, commits, List.filterMap_append, List.map_append] at c1 c2 ⊢
    rw [c1, c2]
  · simp only [delegatedCommits, commits, List.filterMap_append] at e1 e2 ⊢
    rw [e1, e2]

theorem formats_ne : responseFormat ≠ requestFormat := by decide

theorem audited_commit (id : String) (c : Int) :
    Audited id [Event.handler (Method.WriteHeader c),
      Event.Infof responseFormat [Arg.str id, Arg.int c],
      Event.underlying (Method.WriteHeader c)] := by
  refine ⟨?_, rfl, ?_, rfl⟩
  · simp [requestLines, List.filterMap_cons, formats_ne]
  · simp [responseLines, commits, List.filterMap_cons]

theorem audited_call (id : String) (m : Method) (h : ∀ c, m ≠ Method.WriteHeader c) :
    Audited id [Event.handler m, Event.underlying m] := by
  cases m with
  | WriteHeader c => exact absurd rfl (h c)
  | _ => exact ⟨rfl, rfl, rfl, rfl⟩

theorem constructResponseWriter_sound {σ : Type} (w : ResponseWriter σ) (id : String) :
    (constructResponseWriter w id).Sound := by
  cases h : (w.isCloseNotifier && w.isFlusher && w.isHijacker)
  · rw [constructResponseWriter_of_not_all w id h]; trivial
  · rw [constructResponseWriter_of_all w id h]
    simpa [Wrapper.Sound, Bool.and_eq_true, and_assoc] using h

/-- A handler run against a sound wrapper ends, and the events it adds are
audited under the wrapper's identifier. -/
theorem run_audited {σ : Type} (p : Script σ) :
    ∀ (x : Wrapper σ) (s : World σ), x.Sound →
      ∃ s1 d, p.run x s = some s1 ∧ s1.trace = s.trace ++ d ∧ Audited x.id d := by
  induction p with
  | done => intro x s _; exact ⟨s, [], rfl, by simp, audited_nil _⟩
  | WriteHeader code k ih =>
    intro x s hx
    obtain ⟨s1, d, h1, h2, h3⟩ :=
      ih x (x.WriteHeader code (handlerCalls (Method.WriteHeader code) s)) hx
    refine ⟨s1, _, h1, ?_, audited_append (audited_commit x.id code) h3⟩
    rw [h2, writeHeader_trace]
    simp [handlerCalls]
  | Write b k ih =>
    intro x s hx
    obtain ⟨s1, d, h1, h2, h3⟩ :=
      ih (x.Write b (handlerCalls (Method.Write b) s)).1 x
        (x.Write b (handlerCalls (Method.Write b) s)).2 hx
    refine ⟨s1, _, h1, ?_,
      audited_append (audited_call x.id (Method.Write b) (fun c e => by cases e)) h3⟩
    rw [h2]
    simp [Wrapper.Write, auditResponseWriter.Write, invoke, handlerCalls]
  | Header k ih =>
    intro x s hx
    obtain ⟨s1, d, h1, h2, h3⟩ :=
      ih (x.Header (handlerCalls Method.Header s)).1 x
        (x.Header (handlerCalls Method.Header s)).2 hx
    refine ⟨s1, _, h1, ?_,
      audited_append (audited_call x.id Method.Header (fun c e => by cases e)) h3⟩
    rw [h2]
    simp [Wrapper.Header, auditResponseWriter.Header, invoke, handlerCalls]
  | CloseNotify k ih =>
    intro x s hx
    cases x with
    | audit a => exact ih none (Wrapper.audit a) s hx
    | fancy f =>
      have hcn := hx.1
      obtain ⟨cn, hcn⟩ := Option.isSome_iff_exists.mp hcn
      obtain ⟨s1, d, h1, h2, h3⟩ :=
        ih (some (invoke Method.CloseNotify cn (handlerCalls Method.CloseNotify s)).1)
          (Wrapper.fancy f)
          (invoke Method.CloseNotify cn (handlerCalls Method.CloseNotify s)).2 hx
      refine ⟨s1, _, ?_, ?_,
        audited_append (audited_call _ Method.CloseNotify (fun c e => by cases e)) h3⟩
      · simp only [Script.run, Wrapper.asCloseNotifier,
          fancyResponseWriterDelegator.CloseNotify, hcn]
        exact h1
      · rw [h2]
        simp [invoke, handlerCalls]
  | Flush k ih =>
    intro x s hx
    cases x with
    | audit a => exact ih false (Wrapper.audit a) s hx
    | fancy f =>
      have hfl := hx.2.1
      obtain ⟨fl, hfl⟩ := Option.isSome_iff_exists.mp hfl
      obtain ⟨s1, d, h1, h2, h3⟩ :=
        ih true (Wrapper.fancy f) (invokeUnit Method.Flush fl (handlerCalls Method.Flush s)) hx
      refine ⟨s1, _, ?_, ?_,
        audited_append (audited_call _ Method.Flush (fun c e => by cases e)) h3⟩
      · simp only [Script.run, Wrapper.asFlusher, fancyResponseWriterDelegator.Flush, hfl]
        exact h1
      · rw [h2]
        simp [invokeUnit, handlerCalls]
  | Hijack k ih =>
    intro x s hx
    cases x with
    | audit a => exact ih none (Wrapper.audit a) s hx
    | fancy f =>
      have hhj := hx.2.2
      obtain ⟨hj, hhj⟩ := Option.isSome_iff_exists.mp hhj
      obtain ⟨s1, d, h1, h2, h3⟩ :=
        ih (some (invoke Method.Hijack hj (handlerCalls Method.Hijack s)).1) (Wrapper.fancy f)
          (invoke Method.Hijack hj (handlerCalls Method.Hijack s)).2 hx
      refine ⟨s1, _, ?_, ?_,
        audited_append (audited_call _ Method.Hijack (fun c e => by cases e)) h3⟩
      · simp only [Script.run, Wrapper.asHijacker, fancyResponseWriterDelegator.Hijack, hhj]
        exact h1
      · rw [h2]
        simp [invoke, handlerCalls]
  | effect f k ih =>
    intro x s hx
    exact ih (f s.ext) x { s with ext := f s.ext } hx

/-- The handler built by `WithAudit` ends; it adds to the trace the request
line, then the entry into the inner handler, then the events of the inner
handler running against `constructResponseWriter(w, id)`. -/
theorem WithAudit_trace {σ : Type} (env : Collaborators σ) (handler : Request → Script σ)
    (requestContextMapper : RequestContextMapper σ) (w : ResponseWriter σ) (req : Request)
    (s : World σ) :
    ∃ s1 d, WithAudit env handler requestContextMapper w req s = some s1 ∧
      (handler req).run (constructResponseWriter w (env.NewRandomString s.ext).1)
        { ext := (env.NewRandomString s.ext).2,
          trace := s.trace ++ [Event.Infof requestFormat
            (requestArgs env requestContextMapper req s), Event.ServeHTTP req] } = some s1 ∧
      s1.trace = s.trace ++ (Event.Infof requestFormat
        (requestArgs env requestContextMapper req s) :: Event.ServeHTTP req :: d) ∧
      Audited (env.NewRandomString s.ext).1 d := by
  obtain ⟨s1, d, h1, h2, h3⟩ := run_audited (handler req)
    (constructResponseWriter w (env.NewRandomString s.ext).1)
    { ext := (env.NewRandomString s.ext).2,
      trace := s.trace ++ [Event.Infof requestFormat
        (requestArgs env requestContextMapper req s), Event.ServeHTTP req] }
    (constructResponseWriter_sound w _)
  refine ⟨s1, d, ?_, h1, ?_, ?_⟩
  · rw [← h1]
    simp [WithAudit, ServeHTTP, glogInfof, requestArgs]
  · rw [h2]; simp
  · simpa [Wrapper.id, constructResponseWriter_base] using h3

theorem appendEscapedRune_latin1 (up up1 : Char → Bool) (r : Char) (h : r.toNat ≤ 255) :
    appendEscapedRune up r = appendEscapedRune up1 r := by
  simp [appendEscapedRune, IsPrint, h]

theorem Quote_latin1 (up up1 : Char → Bool) (s : List Char)
    (h : s.all (fun c => decide (c.toNat ≤ 255)) = true) : Quote up s = Quote up1 s := by
  have : s.flatMap (appendEscapedRune up) = s.flatMap (appendEscapedRune up1) := by
    induction s with
    | nil => rfl
    | cons c cs ih =>
      simp only [List.all_cons, Bool.and_eq_true, decide_eq_true_eq] at h
      simp only [List.flatMap_cons]
      rw [ih h.2, appendEscapedRune_latin1 up up1 c h.1]
  simp only [Quote, this]

theorem sprintfChars_latin1 (up up1 : Char → Bool) (fmt : List Char) (args : List Arg)
    (h : latin1Args args = true) : sprintfChars up fmt args = sprintfChars up1 fmt args := by
  induction fmt, args using sprintfChars.induct up with
  | case1 => simp [sprintfChars]
  | case2 => simp [sprintfChars]
  | case3 fmt v args ih =>
    simp only [latin1Args, List.all_cons, Bool.and_eq_true] at h
    simp only [sprintfChars]
    rw [ih (by simpa [latin1Args] using h.2), Quote_latin1 up up1 _ h.1]
  | case4 fmt v args ih =>
    simp only [latin1Args, List.all_cons, Bool.and_eq_true] at h
    simp only [sprintfChars]
    rw [ih (by simpa [latin1Args] using h.2), Quote_latin1 up up1 _ h.1]
  | case5 fmt i args ih =>
    simp only [latin1Args, List.all_cons, Bool.and_eq_true] at h
    simp only [sprintfChars]
    rw [ih (by simpa [latin1Args] using h.2)]
  | case6 tail x h1 h2 h3 =>
    rw [sprintfChars, sprintfChars]
    · exact h1
    · exact h2
    · exact h3
    · exact h1
    · exact h2
    · exact h3
  | case7 c fmt args h1 h2 h3 h4 ih =>
    rw [sprintfChars, sprintfChars, ih h]
    all_goals assumption

theorem sprintfChars_q (up : Char → Bool) (fmt : List Char) (v : String) (args : List Arg) :
    sprintfChars up ('%' :: 'q' :: fmt) (Arg.str v :: args) =
      (sprintfChars up fmt args).map (Quote up v.toList ++ ·) := by
  simp [sprintfChars]

theorem sprintfChars_q_stringer (up : Char → Bool) (fmt : List Char) (v : String)
    (args : List Arg) :
    sprintfChars up ('%' :: 'q' :: fmt) (Arg.stringer v :: args) =
      (sprintfChars up fmt args).map (Quote up v.toList ++ ·) := by
  simp [sprintfChars]

theorem sprintfChars_lit (up : Char → Bool) (c : Char) (fmt : List Char) (args : List Arg)
    (h : c ≠ '%') :
    sprintfChars up (c :: fmt) args = (sprintfChars up fmt args).map (c :: ·) := by
  cases args <;> simp [sprintfChars, h]

theorem requestFormat_toList :
    requestFormat.toList =
      "AUDIT: id=".toList ++ ('%' :: 'q' :: (" ip=".toList ++ ('%' :: 'q' ::
        (" method=".toList ++ ('%' :: 'q' :: (" user=".toList ++ ('%' :: 'q' ::
        (" as=".toList ++ ('%' :: 'q' :: (" namespace=".toList ++ ('%' :: 'q' ::
        (" uri=".toList ++ ['%', 'q'])))))))))))) := by
  decide

theorem sprintfChars_text (up : Char → Bool) (t fmt : List Char) (args : List Arg)
    (h : t.all (fun c => decide (c ≠ '%')) = true) :
    sprintfChars up (t ++ fmt) args = (sprintfChars up fmt args).map (t ++ ·) := by
  induction t with
  | nil => simp
  | cons c cs ih =>
    simp only [List.all_cons, Bool.and_eq_true, decide_eq_true_eq] at h
    rw [List.cons_append, sprintfChars_lit up c _ _ h.1, ih h.2]
    simp [Option.map_map, Function.comp_def]

theorem Sprintf_requestFormat (up : Char → Bool) (a b c d e f g : String) :
    Sprintf up requestFormat
        [Arg.str a, Arg.str b, Arg.str c, Arg.str d, Arg.str e, Arg.str f, Arg.stringer g] =
      some (String.mk ("AUDIT: id=".toList ++ Quote up a.toList ++
        " ip=".toList ++ Quote up b.toList ++ " method=".toList ++ Quote up c.toList ++
        " user=".toList ++ Quote up d.toList ++ " as=".toList ++ Quote up e.toList ++
        " namespace=".toList ++ Quote up f.toList ++ " uri=".toList ++ Quote up g.toList)) := by
  have hend : sprintfChars up ['%', 'q'] [Arg.stringer g] = some (Quote up g.toList) := by
    simp [sprintfChars]
  simp only [Sprintf, requestFormat_toList]
  rw [sprintfChars_text up _ _ _ (by decide), sprintfChars_q,
    sprintfChars_text up _ _ _ (by decide), sprintfChars_q,
    sprintfChars_text up _ _ _ (by decide), sprintfChars_q,
    sprintfChars_text up _ _ _ (by decide), sprintfChars_q,
    sprintfChars_text up _ _ _ (by decide), sprintfChars_q,
    sprintfChars_text up _ _ _ (by decide), sprintfChars_q,
    sprintfChars_text up _ _ _ (by decide), hend]
  simp [List.append_assoc]

theorem HeaderGet_eq_empty_iff (h : List (String × List String)) (key : String) :
    HeaderGet h key = "" ↔
      (h.lookup key = none ∨ h.lookup key = some [] ∨ ∃ vs, h.lookup key = some ("" :: vs)) := by
  unfold HeaderGet
  cases hl : h.lookup key with
  | none => simp
  | some l =>
    cases l with
    | nil => simp
    | cons v vs => simp

theorem asuserOf_eq (req : Request) :
    asuserOf req =
      if HeaderGet req.Header "Impersonate-User" = "" then "<self>"
      else HeaderGet req.Header "Impersonate-User" := by
  simp only [asuserOf, beq_iff_eq, len_eq_zero_iff]

theorem namespaceOf_eq (ctx : Option Context) :
    namespaceOf ctx = if NamespaceValue ctx = "" then "<none>" else NamespaceValue ctx := by
  simp only [namespaceOf, beq_iff_eq, len_eq_zero_iff]

theorem requestLines_delta {σ : Type} (env : Collaborators σ)
    (requestContextMapper : RequestContextMapper σ) (req : Request) (s s1 : World σ)
    (d : List Event)
    (h : s1.trace = s.trace ++ (Event.Infof requestFormat
      (requestArgs env requestContextMapper req s) :: Event.ServeHTTP req :: d))
    (hd : Audited (env.NewRandomString s.ext).1 d) :
    requestLines (s1.trace.drop s.trace.length) =
      [requestArgs env requestContextMapper req s] := by
  rw [h, List.drop_left]
  have := hd.1
  simp only [requestLines] at this
  simp [requestLines, List.filterMap_cons, this]

/-- C5: the handler built by `WithAudit` ends; the events it adds are the
request line, then the entry into the inner handler with the original
request, then the events of the inner handler running against
`constructResponseWriter(w, id)`.  Among them there is one request line and one
entry into the inner handler, and the response lines are, in order, one per
status commit of the inner handler, each with the id of the request line. -/
theorem WithAudit_lines {σ : Type} (env : Collaborators σ) (handler : Request → Script σ)
    (requestContextMapper : RequestContextMapper σ) (w : ResponseWriter σ) (req : Request)
    (s : World σ) :
    ∃ s1 d, WithAudit env handler requestContextMapper w req s = some s1 ∧
      s1.trace = s.trace ++ (Event.Infof requestFormat
        (requestArgs env requestContextMapper req s) :: Event.ServeHTTP req :: d) ∧
      (handler req).run (constructResponseWriter w (env.NewRandomString s.ext).1)
        { ext := (env.NewRandomString s.ext).2,
          trace := s.trace ++ [Event.Infof requestFormat
            (requestArgs env requestContextMapper req s), Event.ServeHTTP req] } = some s1 ∧
      requestLines (s1.trace.drop s.trace.length) =
        [requestArgs env requestContextMapper req s] ∧
      (requestArgs env requestContextMapper req s).head? =
        some (Arg.str (env.NewRandomString s.ext).1) ∧
      serves (s1.trace.drop s.trace.length) = [req] ∧
      responseLines (s1.trace.drop s.trace.length) =
        (commits (s1.trace.drop s.trace.length)).map
          (fun c => [Arg.str (env.NewRandomString s.ext).1, Arg.int c]) ∧
      delegatedCommits (s1.trace.drop s.trace.length) =
        commits (s1.trace.drop s.trace.length) := by
  obtain ⟨s1, d, h1, h2, h3, h4⟩ := WithAudit_trace env handler requestContextMapper w req s
  refine ⟨s1, d, h1, h3, h2, requestLines_delta env requestContextMapper req s s1 d h3 h4, rfl,
    ?_, ?_, ?_⟩
  · rw [h3, List.drop_left]
    have := h4.2.1
    simp only [serves] at this
    simp [serves, List.filterMap_cons, this]
  · rw [h3, List.drop_left]
    have := h4.2.2.1
    simp only [responseLines, commits] at this
    simp [responseLines, commits, List.filterMap_cons, formats_ne.symm, this]
  · rw [h3, List.drop_left]
    have := h4.2.2.2
    simp only [delegatedCommits, commits] at this
    simp [delegatedCommits, commits, List.filterMap_cons, this]

/-- C6: the request line is `requestFormat` applied, in this order, to the
generated id, the client IP, the method, the user name, the impersonated user
(or `<self>`), the namespace (or `<none>`) and the URI; it renders as the fixed
text of the format with each value quoted in place.  In the scenario (method
`GET`, `Impersonate-User: alice`, user `system:admin`, namespace `default`,
URI `/api/v1/pods`) the rendered line contains the expected text. -/
theorem request_line_format {σ : Type} (env : Collaborators σ) (handler : Request → Script σ)
    (requestContextMapper : RequestContextMapper σ) (w : ResponseWriter σ) (req : Request)
    (s : World σ) (up : Char → Bool) :
    (∃ s1, WithAudit env handler requestContextMapper w req s = some s1 ∧
      requestLines (s1.trace.drop s.trace.length) =
        [[Arg.str (env.NewRandomString s.ext).1, Arg.str (env.GetClientIP req),
          Arg.str req.Method,
          Arg.str (GetName (UserFrom (requestContextMapper.Get req s.ext).1).1),
          Arg.str (asuserOf req),
          Arg.str (namespaceOf (requestContextMapper.Get req s.ext).1),
          Arg.stringer req.URL.String]] ∧
      (s1.trace.drop s.trace.length).head? =
        some (Event.Infof requestFormat (requestArgs env requestContextMapper req s))) ∧
    Event.message up (Event.Infof requestFormat (requestArgs env requestContextMapper req s)) =
      some (String.mk ("AUDIT: id=".toList ++ Quote up (env.NewRandomString s.ext).1.toList ++
        " ip=".toList ++ Quote up (env.GetClientIP req).toList ++
        " method=".toList ++ Quote up req.Method.toList ++
        " user=".toList ++
          Quote up (GetName (UserFrom (requestContextMapper.Get req s.ext).1).1).toList ++
        " as=".toList ++ Quote up (asuserOf req).toList ++
        " namespace=".toList ++
          Quote up (namespaceOf (requestContextMapper.Get req s.ext).1).toList ++
        " uri=".toList ++ Quote up req.URL.String.toList)) ∧
    (∃ s1, WithAudit scenarioEnv scenarioHandler scenarioMapper simpleResponseWriter
        scenarioRequest { ext := 0, trace := [] } = some s1 ∧
      s1.trace.map (Event.message up) =
        [some ("AUDIT: id=\"6ba7b810-9dad-41d1-80b4-00c04fd430c8\" ip=\"10.0.0.1\" " ++
          "method=\"GET\" user=\"system:admin\" as=\"alice\" namespace=\"default\" uri=\"/api/v1/pods\""),
         none, none,
         some "AUDIT: id=\"6ba7b810-9dad-41d1-80b4-00c04fd430c8\" response=\"200\"",
         none]) := by
  obtain ⟨s1, d, h1, -, h3, h4⟩ := WithAudit_trace env handler requestContextMapper w req s
  refine ⟨⟨s1, h1, requestLines_delta env requestContextMapper req s s1 d h3 h4, ?_⟩,
    Sprintf_requestFormat up _ _ _ _ _ _ _, ?_⟩
  · rw [h3, List.drop_left]; rfl
  · refine ⟨_, rfl, ?_⟩
    show List.map (Event.message up) [Event.Infof requestFormat
        (requestArgs scenarioEnv scenarioMapper scenarioRequest { ext := 0, trace := [] }),
      Event.ServeHTTP scenarioRequest, Event.handler (Method.WriteHeader 200),
      Event.Infof responseFormat [Arg.str "6ba7b810-9dad-41d1-80b4-00c04fd430c8", Arg.int 200],
      Event.underlying (Method.WriteHeader 200)] = _
    have e : ∀ e : Event, latin1Args (match e with | Event.Infof _ args => args | _ => []) = true →
        Event.message up e = Event.message (fun _ => true) e := by
      intro e he
      cases e with
      | Infof format args =>
        simp only [Event.message, Sprintf]
        rw [sprintfChars_latin1 up (fun _ => true) _ _ he]
      | _ => rfl
    have hm : ∀ ev ∈ [Event.Infof requestFormat
          (requestArgs scenarioEnv scenarioMapper scenarioRequest { ext := 0, trace := [] }),
        Event.ServeHTTP scenarioRequest, Event.handler (Method.WriteHeader 200),
        Event.Infof responseFormat [Arg.str "6ba7b810-9dad-41d1-80b4-00c04fd430c8", Arg.int 200],
        Event.underlying (Method.WriteHeader 200)],
        Event.message up ev = Event.message (fun _ => true) ev := by
      intro ev hev
      apply e
      revert ev
      decide
    exact (List.map_congr_left hm).trans (by decide)

/-- C7: the `as` field of the request line is `<self>` exactly when
`Impersonate-User` is absent or empty (or is itself `<self>`), and is the
header's first value whenever that is not empty. -/
theorem as_field {σ : Type} (env : Collaborators σ) (handler : Request → Script σ)
    (requestContextMapper : RequestContextMapper σ) (w : ResponseWriter σ) (req : Request)
    (s : World σ) :
    (∃ s1, WithAudit env handler requestContextMapper w req s = some s1 ∧
      (requestLines (s1.trace.drop s.trace.length)).map (fun l => l[4]?) =
        [some (Arg.str (asuserOf req))]) ∧
    (asuserOf req = "<self>" ↔
      (HeaderGet req.Header "Impersonate-User" = "" ∨
        HeaderGet req.Header "Impersonate-User" = "<self>")) ∧
    (HeaderGet req.Header "Impersonate-User" = "" ↔
      (req.Header.lookup "Impersonate-User" = none ∨
        req.Header.lookup "Impersonate-User" = some [] ∨
        ∃ vs, req.Header.lookup "Impersonate-User" = some ("" :: vs))) ∧
    (∀ v vs, req.Header.lookup "Impersonate-User" = some (v :: vs) → v ≠ "" →
      asuserOf req = v) ∧
    asuserOf bobRequest = "bob" ∧
    asuserOf bareRequest = "<self>" := by
  obtain ⟨s1, d, h1, -, h3, h4⟩ := WithAudit_trace env handler requestContextMapper w req s
  refine ⟨⟨s1, h1, ?_⟩, ?_, HeaderGet_eq_empty_iff _ _, ?_, by decide, by decide⟩
  · rw [requestLines_delta env requestContextMapper req s s1 d h3 h4]; rfl
  · rw [asuserOf_eq]
    by_cases h : HeaderGet req.Header "Impersonate-User" = ""
    · simp [h]
    · simp [h]
  · intro v vs hl hv
    have hg : HeaderGet req.Header "Impersonate-User" = v := by simp [HeaderGet, hl]
    rw [asuserOf_eq, hg, if_neg hv]

/-- C8: the `namespace` field of the request line is `<none>` when the context
yields no namespace or the empty one, is the namespace itself when that is not
empty, and is never the empty string. -/
theorem namespace_field {σ : Type} (env : Collaborators σ) (handler : Request → Script σ)
    (requestContextMapper : RequestContextMapper σ) (w : ResponseWriter σ) (req : Request)
    (s : World σ) :
    (∃ s1, WithAudit env handler requestContextMapper w req s = some s1 ∧
      (requestLines (s1.trace.drop s.trace.length)).map (fun l => l[5]?) =
        [some (Arg.str (namespaceOf (requestContextMapper.Get req s.ext).1))]) ∧
    (∀ ctx : Option Context,
      (namespaceOf ctx = if NamespaceValue ctx = "" then "<none>" else NamespaceValue ctx) ∧
      namespaceOf ctx ≠ "") ∧
    namespaceOf none = "<none>" ∧
    (∀ u, namespaceOf (some { user := u, namespaceValue := none }) = "<none>") ∧
    (∀ u, namespaceOf (some { user := u, namespaceValue := some "" }) = "<none>") ∧
    (∀ u n, n ≠ "" → namespaceOf (some { user := u, namespaceValue := some n }) = n) ∧
    namespaceOf (some { user := none, namespaceValue := some "kube-system" }) =
      "kube-system" := by
  obtain ⟨s1, d, h1, -, h3, h4⟩ := WithAudit_trace env handler requestContextMapper w req s
  refine ⟨⟨s1, h1, ?_⟩, ?_, by decide, fun _ => rfl, fun _ => rfl, ?_, by decide⟩
  · rw [requestLines_delta env requestContextMapper req s s1 d h3 h4]; rfl
  · intro ctx
    refine ⟨namespaceOf_eq ctx, ?_⟩
    rw [namespaceOf_eq]
    by_cases h : NamespaceValue ctx = ""
    · rw [if_pos h]; decide
    · rw [if_neg h]; exact h
  · intro u n hn
    rw [namespaceOf_eq]
    simp [NamespaceValue, hn]

/-- C9: when the lookup finds no context, or the context carries no user, the
handler built by `WithAudit` still ends: it emits the request line with the
empty user name, with `<none>` for a missing namespace and `<self>` for a
missing impersonation header, and enters the inner handler once. -/
theorem missing_metadata_tolerated {σ : Type} (env : Collaborators σ)
    (handler : Request → Script σ) (requestContextMapper : RequestContextMapper σ)
    (w : ResponseWriter σ) (req : Request) (s : World σ)
    (h : (requestContextMapper.Get req s.ext).1 = none ∨
      ∃ c, (requestContextMapper.Get req s.ext).1 = some c ∧ c.user = none) :
    ∃ s1 d, WithAudit env handler requestContextMapper w req s = some s1 ∧
      s1.trace = s.trace ++ (Event.Infof requestFormat
        [Arg.str (env.NewRandomString s.ext).1, Arg.str (env.GetClientIP req),
          Arg.str req.Method, Arg.str "", Arg.str (asuserOf req),
          Arg.str (namespaceOf (requestContextMapper.Get req s.ext).1),
          Arg.stringer req.URL.String] :: Event.ServeHTTP req :: d) ∧
      requestLines d = [] ∧ serves d = [] ∧
      serves (s1.trace.drop s.trace.length) = [req] ∧
      ((requestContextMapper.Get req s.ext).1 = none →
        namespaceOf (requestContextMapper.Get req s.ext).1 = "<none>") ∧
      (NamespaceValue (requestContextMapper.Get req s.ext).1 = "" →
        namespaceOf (requestContextMapper.Get req s.ext).1 = "<none>") ∧
      (HeaderGet req.Header "Impersonate-User" = "" → asuserOf req = "<self>") := by
  obtain ⟨s1, d, h1, -, h3, h4⟩ := WithAudit_trace env handler requestContextMapper w req s
  have hu : GetName (UserFrom (requestContextMapper.Get req s.ext).1).1 = "" := by
    rcases h with h | ⟨c, hc, hcu⟩
    · rw [h]; rfl
    · rw [hc]; simp [UserFrom, hcu, GetName]
  refine ⟨s1, d, h1, ?_, h4.1, h4.2.1, ?_, ?_, ?_, ?_⟩
  · rw [h3]; simp only [requestArgs, hu]
  · rw [h3, List.drop_left]
    have := h4.2.1
    simp only [serves] at this
    simp [serves, List.filterMap_cons, this]
  · intro hn; rw [hn]; decide
  · intro hn; rw [namespaceOf_eq, if_pos hn]
  · intro hn; rw [asuserOf_eq, if_pos hn]

/-- C9 at a request without context and without headers, whose inner handler
commits status 200 on a plain writer. -/
theorem missing_metadata_tolerated_witness :
    ((absentMapper.Get bareRequest 0).1 = none ∨
      ∃ c, (absentMapper.Get bareRequest 0).1 = some c ∧ c.user = none) ∧
    ∃ s1 d, WithAudit scenarioEnv scenarioHandler absentMapper simpleResponseWriter bareRequest
        { ext := 0, trace := [] } = some s1 ∧
      s1.trace = [] ++ (Event.Infof requestFormat
        [Arg.str "6ba7b810-9dad-41d1-80b4-00c04fd430c8", Arg.str "10.0.0.1",
          Arg.str "GET", Arg.str "", Arg.str (asuserOf bareRequest),
          Arg.str (namespaceOf (absentMapper.Get bareRequest 0).1),
          Arg.stringer "/healthz"] :: Event.ServeHTTP bareRequest :: d) ∧
      requestLines d = [] ∧ serves d = [] ∧
      serves (s1.trace.drop 0) = [bareRequest] ∧
      ((absentMapper.Get bareRequest 0).1 = none →
        namespaceOf (absentMapper.Get bareRequest 0).1 = "<none>") ∧
      (NamespaceValue (absentMapper.Get bareRequest 0).1 = "" →
        namespaceOf (absentMapper.Get bareRequest 0).1 = "<none>") ∧
      (HeaderGet bareRequest.Header "Impersonate-User" = "" →
        asuserOf bareRequest = "<self>") :=
  ⟨Or.inl rfl,
    missing_metadata_tolerated scenarioEnv scenarioHandler absentMapper simpleResponseWriter
      bareRequest { ext := 0, trace := [] } (Or.inl rfl)⟩

end audit
